import Mathlib

/-!
Shallow embedding of the tour capture and assembly pipeline of
`src/tour-recorder/record-tour.py`, together with proofs about the
properties its specification states.

Conventions of the embedding:
* Python floats are modelled as rationals (`ℚ`); the program only adds,
  subtracts, multiplies, divides, compares and rounds durations and
  coordinates, so the arithmetic is exact.
* `int(x)` and `round(x)` are modelled by `pyInt` and `pyRound`
  (truncation toward zero, and round-half-to-even).
* Wall-clock time is modelled by an explicit clock threaded through the
  capture loop; every blocking operation advances the clock by the
  requested sleep time plus an arbitrary nonnegative environment-chosen
  overhead (`ContEnv`), and external outcomes (TTS durations, page-driver
  success) are environment oracles.
* Fallible Python functions (those that raise `TourError`) return
  `Except String α`.
-/

namespace TourRecorder

/-! ### Python numeric primitives -/

/-- Python `int(x)`: truncation toward zero. -/
def pyInt (q : ℚ) : ℤ :=
  if q < 0 then -⌊-q⌋ else ⌊q⌋

/-- Python 3 `round(x)` (to an integer): round half to even. -/
def pyRound (q : ℚ) : ℤ :=
  if q - ⌊q⌋ < 1/2 then ⌊q⌋
  else if 1/2 < q - ⌊q⌋ then ⌊q⌋ + 1
  else if ⌊q⌋ % 2 = 0 then ⌊q⌋ else ⌊q⌋ + 1

/-- Python `abs(x)`. -/
def pyAbs (q : ℚ) : ℚ :=
  if q < 0 then -q else q

/-! ### Python string primitives -/

/-- Characters removed by Python `str.strip()` (ASCII whitespace). -/
def pyIsSpace (c : Char) : Bool :=
  c == ' ' || c == '\t' || c == '\n' || c == '\r' || c == '\x0b' || c == '\x0c'

/-- Python `str.strip()`. -/
def pyStrip (s : String) : String :=
  String.mk (((s.data.dropWhile pyIsSpace).reverse.dropWhile pyIsSpace).reverse)

/-- Python `str.lower()` (ASCII fragment, which is all the pipeline compares). -/
def pyLower (s : String) : String :=
  String.mk (s.data.map Char.toLower)

/-- Decimal digit character of `n % 10`. -/
def digitChar (n : ℕ) : Char :=
  Char.ofNat (48 + n % 10)

/-- Digit accumulator for decimal rendering (`fuel` bounds the recursion
structurally so that the definition evaluates in the kernel). -/
def natDigitsGo (fuel : ℕ) (n : ℕ) (acc : List Char) : List Char :=
  match fuel with
  | 0 => acc
  | fuel + 1 =>
    if n < 10 then digitChar n :: acc
    else natDigitsGo fuel (n / 10) (digitChar n :: acc)

/-- Decimal rendering of a natural number (Python `str`/f-string of an int). -/
def natRepr (n : ℕ) : String :=
  String.mk (natDigitsGo (n + 1) n [])

/-- Decimal rendering of an integer. -/
def intRepr (z : ℤ) : String :=
  if z < 0 then "-" ++ natRepr z.natAbs else natRepr z.natAbs

/-- Fixed-point rendering of a rational with `d` decimals, like a Python
f-string `:.df` conversion (round-half-even, always `d` decimals). -/
def pyFmt (d : ℕ) (q : ℚ) : String :=
  (if q < 0 then "-" else "")
    ++ natRepr ((pyRound (pyAbs q * (10 : ℚ) ^ d)).toNat / 10 ^ d)
    ++ "."
    ++ String.mk (List.replicate (d - (natRepr ((pyRound (pyAbs q * (10 : ℚ) ^ d)).toNat % 10 ^ d)).length) '0')
    ++ natRepr ((pyRound (pyAbs q * (10 : ℚ) ^ d)).toNat % 10 ^ d)

/-- The string `pat` occurs as a contiguous substring of `s`. -/
def containsSub (pat s : String) : Prop :=
  pat.data <:+: s.data

/-! ### Data model -/

/-- The `{path, duration}` audio mapping entry produced by `prerender_tts`. -/
structure AudioInfo where
  path : String
  duration : ℚ
deriving DecidableEq

/-- The `StepResult` dataclass of `record-tour.py`. -/
structure StepResult where
  step_id : String
  attempt_count : ℕ
  success : Bool
  clip_path : Option String
  audio_path : String
  audio_duration : ℚ
  step_elapsed : ℚ
  video_offset : ℚ := 0
  step_end_offset : Option ℚ := none
deriving DecidableEq

/-- The per-step `zoom` override object a spec step may carry
(`build_camera_path` reads keys `focus`, `z`, `cx`, `cy`, `transition_ms`). -/
structure ZoomOverride where
  focus : Option String := none
  z : Option ℚ := none
  cx : Option ℚ := none
  cy : Option ℚ := none
  transition_ms : Option ℚ := none
deriving DecidableEq

/-- A spec step, restricted to the fields the verified pipeline reads:
`id`, `narration` (TTS input), and, for the camera-path compiler, the
`type` tags of its `actions` and the optional `zoom` override. -/
structure Step where
  id : String
  narration : String := ""
  actions : List String := []
  zoom : Option ZoomOverride := none
deriving DecidableEq

/-- The `CameraKeyframe` dataclass. -/
structure CameraKeyframe where
  time : ℚ
  cx : ℚ
  cy : ℚ
  zoom : ℚ
  transition_ms : ℚ
deriving DecidableEq

/-! ### Spec validation: the `settings.mode` normalization of `load_tour_spec`
(lines 180-183 of `record-tour.py`): `str(settings.get("mode",
"independent")).strip().lower()` must be one of the two recognized values and
is stored back in that canonical form. -/

/-- Mode normalization and check performed by `load_tour_spec`.  `none` models
an absent `settings.mode` key; the returned value models what is stored back
into `settings["mode"]`. -/
def load_tour_spec_mode (modeField : Option String) : Except String String :=
  if pyLower (pyStrip (modeField.getD "independent")) = "independent"
      ∨ pyLower (pyStrip (modeField.getD "independent")) = "continuous" then
    Except.ok (pyLower (pyStrip (modeField.getD "independent")))
  else
    Except.error "Spec settings.mode must be independent or continuous"

/-! ### Audio synchronization: `prerender_tts` -/

/-- Environment oracles for `prerender_tts`: whether a cached wav exists for a
step id (read only under `--skip-tts`), and the externally produced audio
durations (`len(samples)/sample_rate` from Kokoro, or
`sample_count/sample_rate` from the reused file). -/
structure TtsEnv where
  skip_tts : Bool := false
  wavExists : String → Bool := fun _ => true
  ttsDuration : String → ℚ := fun _ => 0
  fileDuration : String → ℚ := fun _ => 0

/-- The duration recorded for a step by `prerender_tts` (which of the two
oracles is consulted depends on `--skip-tts`). -/
def stepDuration (env : TtsEnv) (id : String) : ℚ :=
  if env.skip_tts then env.fileDuration id else env.ttsDuration id

/-- The per-step loop of `prerender_tts`, threading the accumulated
`total_narration` and the `step_audio` mapping; after the loop the total is
checked against `target_duration_seconds`. -/
def prerenderGo (env : TtsEnv) (target : ℚ) :
    List Step → ℚ → List (String × AudioInfo) → Except String (List (String × AudioInfo))
  | [], total, acc =>
    if target < total then
      Except.error "Total narration duration exceeds target_duration_seconds"
    else
      Except.ok acc
  | step :: rest, total, acc =>
    if pyStrip step.narration = "" then
      Except.error ("Step " ++ step.id ++ " has empty narration")
    else if env.skip_tts ∧ env.wavExists step.id = false then
      Except.error "skip-tts requested but missing audio file"
    else
      prerenderGo env target rest (total + stepDuration env step.id)
        (acc ++ [(step.id, { path := "step-" ++ step.id ++ ".wav", duration := stepDuration env step.id })])

/-- `prerender_tts(spec, audio_dir, skip_tts)`: produce the step-id to
`{path, duration}` mapping, failing if a narration is empty, a reused wav is
missing, or the total narration duration exceeds the target. -/
def prerender_tts (env : TtsEnv) (steps : List Step) (target : ℚ) :
    Except String (List (String × AudioInfo)) :=
  prerenderGo env target steps 0 []

/-- Sum of the per-step audio durations the run would produce. -/
def totalNarration (env : TtsEnv) (steps : List Step) : ℚ :=
  (steps.map (fun step => stepDuration env step.id)).sum

/-! ### Independent-mode capture: `run_capture_phase` -/

/-- The retry loop of `run_capture_phase` for one step.  `succeeds n` is the
page-driver oracle: whether `capture_step_video` returns a clip on attempt
number `n` (1-based).  `remaining` is the number of retries still allowed
(`max_retries - (attempt - 1)`); the loop enters attempt `attempt` only while
`attempts <= max_retries` held, mirroring the `while` loop.  Returns the final
`(attempt_count, success)` pair. -/
def captureStepGo (succeeds : ℕ → Bool) : ℕ → ℕ → ℕ × Bool
  | attempt, 0 =>
    if succeeds attempt then (attempt, true) else (attempt, false)
  | attempt, remaining + 1 =>
    if succeeds attempt then (attempt, true)
    else captureStepGo succeeds (attempt + 1) remaining

/-- The `StepResult` recorded by `run_capture_phase` for one step (wall-clock
`step_elapsed` is not modelled and recorded as 0). -/
def run_capture_step (step : Step) (audio : AudioInfo) (succeeds : ℕ → Bool)
    (max_retries : ℕ) : StepResult :=
  { step_id := step.id,
    attempt_count := (captureStepGo succeeds 1 max_retries).1,
    success := (captureStepGo succeeds 1 max_retries).2,
    clip_path :=
      if (captureStepGo succeeds 1 max_retries).2 then
        some ("step-" ++ step.id ++ ".webm")
      else none,
    audio_path := audio.path,
    audio_duration := audio.duration,
    step_elapsed := 0 }

/-- The step loop of `run_capture_phase`: each step runs its retry loop; a step
that exhausts its retry budget raises `TourError`, aborting the phase. -/
def captureListGo (succeeds : String → ℕ → Bool) (max_retries : ℕ)
    (step_audio : String → AudioInfo) : List Step → Except String (List StepResult)
  | [] => Except.ok []
  | step :: rest =>
    if (run_capture_step step (step_audio step.id) (succeeds step.id) max_retries).success then
      Except.map
        (fun results => run_capture_step step (step_audio step.id) (succeeds step.id) max_retries :: results)
        (captureListGo succeeds max_retries step_audio rest)
    else
      Except.error ("Step " ++ step.id ++ " failed after "
        ++ natRepr (run_capture_step step (step_audio step.id) (succeeds step.id) max_retries).attempt_count
        ++ " attempts")

/-- `run_capture_phase(spec, step_audio, dirs, dry_run)`. -/
def run_capture_phase (succeeds : String → ℕ → Bool) (max_retries : ℕ)
    (step_audio : String → AudioInfo) (steps : List Step) (dry_run : Bool) :
    Except String (List StepResult) :=
  if dry_run then
    Except.ok (steps.map (fun step =>
      { step_id := step.id, attempt_count := 0, success := true, clip_path := none,
        audio_path := (step_audio step.id).path,
        audio_duration := (step_audio step.id).duration, step_elapsed := 0 }))
  else
    captureListGo succeeds max_retries step_audio steps

/-! ### Continuous-mode capture: `run_continuous_capture`

Wall-clock time is threaded explicitly.  `time.time()` readings are the
current clock value; `page.wait_for_timeout(ms)` advances the clock by at
least `ms/1000` seconds; everything else (navigation, assertions, actions,
bookkeeping between steps) advances it by an arbitrary nonnegative amount
chosen by the environment. -/

/-- Timing/outcome environment for one continuous-capture run.  `act i` is the
time the navigate/assert/act block of step `i` consumes (including failure
handling), `waitSlack i` is how much the hold sleep overshoots its requested
duration, `post i` is the time between the end-offset reading of step `i` and
the start-of-step reading of step `i+1`, and `startup` is the time between the
`recording_started` reading and the first step.  `ok i` tells whether step
the try-block of step `i` completes without an exception. -/
structure ContEnv where
  startup : ℚ := 0
  act : ℕ → ℚ := fun _ => 0
  waitSlack : ℕ → ℚ := fun _ => 0
  post : ℕ → ℚ := fun _ => 0
  ok : ℕ → Bool := fun _ => true

/-- All time quantities of the environment are nonnegative (wall clocks are
monotone and sleeps never return early). -/
def ContEnv.Nonneg (env : ContEnv) : Prop :=
  0 ≤ env.startup ∧ ∀ i, 0 ≤ env.act i ∧ 0 ≤ env.waitSlack i ∧ 0 ≤ env.post i

/-- The elapsed time at which the hold of step `i` ends
(`step_end_offset = time.time() - recording_started` after `wait_for_timeout`):
the step started at `clock`, its try-block took `act i`, and the hold slept
`int((audio_duration + 1.0) * 1000)` milliseconds plus slack. -/
def contStepEnd (env : ContEnv) (step_audio : String → AudioInfo) (step : Step)
    (i : ℕ) (clock : ℚ) : ℚ :=
  clock + env.act i + (pyInt (((step_audio step.id).duration + 1) * 1000) : ℚ) / 1000
    + env.waitSlack i

/-- The `StepResult` appended for one step of the continuous loop (always with
`clip_path=None`; offsets recorded from the clock). -/
def contResult (env : ContEnv) (step_audio : String → AudioInfo) (step : Step)
    (i : ℕ) (clock : ℚ) : StepResult :=
  { step_id := step.id,
    attempt_count := 1,
    success := env.ok i,
    clip_path := none,
    audio_path := (step_audio step.id).path,
    audio_duration := (step_audio step.id).duration,
    step_elapsed := contStepEnd env step_audio step i clock - clock,
    video_offset := clock,
    step_end_offset := some (contStepEnd env step_audio step i clock) }

/-- The step loop of `run_continuous_capture`.  `clock` is the current elapsed
time since `recording_started` (so offsets are read directly from it). -/
def contGo (env : ContEnv) (step_audio : String → AudioInfo) :
    List Step → ℕ → ℚ → List StepResult
  | [], _, _ => []
  | step :: rest, i, clock =>
    contResult env step_audio step i clock
      :: contGo env step_audio rest (i + 1)
          (contStepEnd env step_audio step i clock + env.post i)

/-- `run_continuous_capture(spec, step_audio, dirs, dry_run)`: run all steps in
one recording context, then attach the saved continuous clip to the first
result (`results[0].clip_path = destination`, line 935). -/
def run_continuous_capture (env : ContEnv) (steps : List Step)
    (step_audio : String → AudioInfo) (dry_run : Bool) : List StepResult :=
  if dry_run then
    steps.map (fun step =>
      { step_id := step.id, attempt_count := 0, success := true, clip_path := none,
        audio_path := (step_audio step.id).path,
        audio_duration := (step_audio step.id).duration, step_elapsed := 0 })
  else
    match contGo env step_audio steps 0 env.startup with
    | [] => []
    | r :: rest => { r with clip_path := some "continuous.webm" } :: rest

/-- `step_end_offset` with the `None` default collapsed to the step start (the
continuous loop always records `some`). -/
def endOffsetD (r : StepResult) : ℚ :=
  r.step_end_offset.getD r.video_offset

/-! ### Independent-mode assembly: `assemble_video` -/

/-- The per-result loop of `assemble_video`: any result with `success=False`
or no clip raises (`Cannot assemble failed step ...`); otherwise the step is
normalized and muxed, collecting the per-step muxed clip names in order. -/
def assembleGo : List StepResult → List String → Except String (List String)
  | [], acc => Except.ok acc
  | r :: rest, acc =>
    if r.success = false ∨ r.clip_path = none then
      Except.error ("Cannot assemble failed step " ++ r.step_id)
    else
      assembleGo rest (acc ++ ["step-" ++ r.step_id ++ "-muxed.mp4"])

/-- The final-concatenation command data of `assemble_video` (what
`concat_step_clips` is invoked with). -/
structure AssemblyOutput where
  muxed : List String
  final_output : String
  target_duration : ℚ
  loudnorm : Bool
deriving DecidableEq

/-- `assemble_video(spec, results, dirs)`. -/
def assemble_video (results : List StepResult) (outPath : String) (target : ℚ)
    (loudnorm : Bool) : Except String AssemblyOutput :=
  Except.map
    (fun muxed =>
      { muxed := muxed, final_output := outPath, target_duration := target,
        loudnorm := loudnorm })
    (assembleGo results [])

/-! ### Per-step mux: `mux_audio_with_offset` -/

/-- The `filter_complex` plan `mux_audio_with_offset` builds: the video is
tpad-cloned by `extra = max(0, audio_duration + 1.0 - base_duration)` and the
narration is delayed by a fixed `adelay=1000|1000` (1 second on both
channels). -/
structure MuxPlan where
  extra : ℚ
  filter_parts : List String
deriving DecidableEq

/-- `mux_audio_with_offset(video, audio, out, audio_duration)` restricted to
its filter-graph arithmetic; `base_duration` is the ffprobe duration of the
normalized input clip. -/
def mux_audio_with_offset (base_duration audio_duration : ℚ) : MuxPlan :=
  if 0 < max 0 (audio_duration + 1 - base_duration) then
    { extra := max 0 (audio_duration + 1 - base_duration),
      filter_parts :=
        ["[0:v]tpad=stop_mode=clone:stop_duration="
            ++ pyFmt 3 (max 0 (audio_duration + 1 - base_duration)) ++ "[v0]",
          "[v0]setpts=PTS-STARTPTS[v]",
          "[1:a]adelay=1000|1000,asetpts=PTS-STARTPTS[a]"] }
  else
    { extra := max 0 (audio_duration + 1 - base_duration),
      filter_parts :=
        ["[0:v]setpts=PTS-STARTPTS[v]",
          "[1:a]adelay=1000|1000,asetpts=PTS-STARTPTS[a]"] }

/-! ### Continuous-mode assembly: `assemble_continuous_video` -/

/-- The per-step `adelay` milliseconds used by `assemble_continuous_video`:
`int(round((video_offset + 1.0) * 1000))`. -/
def narrationDelayMs (r : StepResult) : ℤ :=
  pyRound ((r.video_offset + 1) * 1000)

/-- Moment (in seconds into the assembled video) at which the delayed
narration track of a step starts playing. -/
def narrationStart (r : StepResult) : ℚ :=
  (narrationDelayMs r : ℚ) / 1000

/-- Moment at which the delayed narration track of a step ends. -/
def narrationEnd (r : StepResult) : ℚ :=
  narrationStart r + r.audio_duration

/-- The mixing command data of `assemble_continuous_video`. -/
structure ContAssemblyPlan where
  source_clip : String
  delays_ms : List ℤ
  audio_inputs : List String
  loudnorm : Bool
  max_duration : ℚ
deriving DecidableEq

/-- `assemble_continuous_video(spec, results, dirs)`: pick the first result
carrying a clip as the single source, overlay every narration with its
per-step delay, and truncate to `max_duration_seconds`. -/
def assemble_continuous_video (results : List StepResult) (loudnorm : Bool)
    (max_duration : ℚ) : Except String ContAssemblyPlan :=
  if results = [] then
    Except.error "No steps available to assemble"
  else
    match results.findSome? (fun r => r.clip_path) with
    | none => Except.error "Missing continuous capture clip for assembly"
    | some clip =>
      Except.ok
        { source_clip := clip,
          delays_ms := results.map narrationDelayMs,
          audio_inputs := results.map (fun r => r.audio_path),
          loudnorm := loudnorm,
          max_duration := max_duration }

/-! ### The traditional step-based workflow of `main` (lines 1902-1947):
prerender TTS (local backend), then run exactly one of the two capture
phases.  The boolean records whether a capture phase was invoked. -/

/-- The phase ordering of `main` for the step-based workflow: Phase B
(`prerender_tts`) runs first and any error aborts the run before Phase C;
otherwise exactly one of `run_continuous_capture` / `run_capture_phase` is
invoked on the produced audio mapping. -/
def mainTraditional (tts : TtsEnv) (cont : ContEnv) (succeeds : String → ℕ → Bool)
    (steps : List Step) (target : ℚ) (max_retries : ℕ) (mode : String)
    (dry_run : Bool) : Except String (List StepResult) × Bool :=
  match prerender_tts tts steps target with
  | Except.error e => (Except.error e, false)
  | Except.ok step_audio =>
    if mode = "continuous" then
      (Except.ok (run_continuous_capture cont steps
        (fun id => (((step_audio.find? (fun p => p.1 == id)).map Prod.snd).getD
          { path := "", duration := 0 })) dry_run), true)
    else
      (run_capture_phase succeeds max_retries
        (fun id => (((step_audio.find? (fun p => p.1 == id)).map Prod.snd).getD
          { path := "", duration := 0 })) steps dry_run, true)

/-! ### Camera path derivation: `build_camera_path` and helpers -/

/-- `FOCUS_PRESETS`: `(center_x, center_y, zoom)` per focus region name. -/
def FOCUS_PRESETS (name : String) : Option (ℚ × ℚ × ℚ) :=
  if name = "editor" then some (780, 400, 11/5)
  else if name = "terminal" then some (960, 870, 12/5)
  else if name = "full" then some (960, 540, 1)
  else none

/-- `ZOOM_TRANSITION_MS`. -/
def ZOOM_TRANSITION_MS : ℚ := 600

/-- `ZOOM_NAV_HOLD_MS`. -/
def ZOOM_NAV_HOLD_MS : ℚ := 800

/-- `_action_focus`: map one action type to a focus region name
(empty string = inherit previous focus). -/
def action_focus (atype : String) : String :=
  if atype = "type_text" ∨ atype = "focus_editor" ∨ atype = "highlight_lines"
      ∨ atype = "select_all_and_delete" then "editor"
  else if atype = "terminal_type" then "terminal"
  else if atype = "command_palette" ∨ atype = "dismiss_popups" ∨ atype = "wait_for_load"
      ∨ atype = "wait_for_selector" ∨ atype = "hide_secondary_sidebar" then "full"
  else ""

/-- Increment the count of key `k` in an insertion-ordered association list
(Python dict `counts[focus] = counts.get(focus, 0) + 1`). -/
def bumpCount : List (String × ℕ) → String → List (String × ℕ)
  | [], k => [(k, 1)]
  | (k2, c) :: rest, k =>
    if k2 = k then (k2, c + 1) :: rest else (k2, c) :: bumpCount rest k

/-- The `counts` dict of `_dominant_focus` (insertion-ordered). -/
def focusCounts (actions : List String) : List (String × ℕ) :=
  actions.foldl
    (fun acc a => if action_focus a = "" then acc else bumpCount acc (action_focus a)) []

/-- Python `max(counts, key=counts.get)`: first key (in insertion order) with
a maximal count; later keys replace the best only when strictly greater. -/
def maxByCount : List (String × ℕ) → String × ℕ → String
  | [], best => best.1
  | (k, c) :: rest, best =>
    if best.2 < c then maxByCount rest (k, c) else maxByCount rest best

/-- `_dominant_focus`: terminal dominates if present, else majority vote,
else "editor" when no action maps to a region. -/
def dominant_focus (actions : List String) : String :=
  match focusCounts actions with
  | [] => "editor"
  | c0 :: rest =>
    if (c0 :: rest).any (fun p => p.1 == "terminal") then "terminal"
    else maxByCount rest c0

/-- Focus name and camera parameters chosen for one step by
`build_camera_path` (explicit `zoom` override or auto-derivation). -/
structure CamChoice where
  focus_name : String
  cx : ℚ
  cy : ℚ
  z : ℚ
  transition : ℚ

/-- The override/auto branch of `build_camera_path` for one step definition. -/
def stepCamera (sd : Step) : CamChoice :=
  match sd.zoom with
  | some ov =>
    { focus_name := ov.focus.getD "editor",
      cx := ov.cx.getD (((FOCUS_PRESETS (ov.focus.getD "editor")).getD (780, 400, 11/5)).1),
      cy := ov.cy.getD (((FOCUS_PRESETS (ov.focus.getD "editor")).getD (780, 400, 11/5)).2.1),
      z := ov.z.getD (((FOCUS_PRESETS (ov.focus.getD "editor")).getD (780, 400, 11/5)).2.2),
      transition := ov.transition_ms.getD ZOOM_TRANSITION_MS }
  | none =>
    { focus_name := dominant_focus sd.actions,
      cx := ((FOCUS_PRESETS (dominant_focus sd.actions)).getD (780, 400, 11/5)).1,
      cy := ((FOCUS_PRESETS (dominant_focus sd.actions)).getD (780, 400, 11/5)).2.1,
      z := ((FOCUS_PRESETS (dominant_focus sd.actions)).getD (780, 400, 11/5)).2.2,
      transition := ZOOM_TRANSITION_MS }

/-- The keyframes appended for one step result: when the focus region changes
between two non-"full" regions, route through a brief full-frame establishing
pose at the step start before zooming into the new region. -/
def stepKeyframes (choice : CamChoice) (prev_focus : String) (step_start : ℚ) :
    List CameraKeyframe :=
  if choice.focus_name ≠ prev_focus ∧ prev_focus ≠ "full" ∧ choice.focus_name ≠ "full" then
    [{ time := step_start, cx := 960, cy := 540, zoom := 1,
        transition_ms := choice.transition },
      { time := step_start + ZOOM_NAV_HOLD_MS / 1000, cx := choice.cx, cy := choice.cy,
        zoom := choice.z, transition_ms := choice.transition }]
  else
    [{ time := step_start, cx := choice.cx, cy := choice.cy, zoom := choice.z,
        transition_ms := choice.transition }]

/-- The result loop of `build_camera_path`: results whose step id has no
matching step definition are skipped (and leave `prev_focus` unchanged). -/
def camKfs (steps : List Step) : List StepResult → String → List CameraKeyframe
  | [], _ => []
  | r :: rest, prev_focus =>
    match steps.find? (fun s => s.id == r.step_id) with
    | none => camKfs steps rest prev_focus
    | some sd =>
      stepKeyframes (stepCamera sd) prev_focus r.video_offset
        ++ camKfs steps rest (stepCamera sd).focus_name

/-- `build_camera_path(spec, results, total_duration)`: implicit full-frame
keyframe at t=0, per-result keyframes, and a trailing full-frame keyframe near
the end when the total duration is positive. -/
def build_camera_path (steps : List Step) (results : List StepResult)
    (total_duration : ℚ) : List CameraKeyframe :=
  { time := 0, cx := 960, cy := 540, zoom := 1, transition_ms := 0 }
    :: (camKfs steps results "full"
      ++ (if 0 < total_duration then
            [{ time := max 0 (total_duration - 2), cx := 960, cy := 540, zoom := 1,
                transition_ms := ZOOM_TRANSITION_MS }]
          else []))

/-! ### Filter-graph compilation: `_build_zoom_filter_complex` -/

/-- The static-crop segment filter (fast path: no interpolation). -/
def staticSegFilter (i : ℕ) (w h x y : ℤ) (srcW srcH : ℕ) : String :=
  "[seg" ++ natRepr i ++ "_raw]crop=" ++ intRepr w ++ ":" ++ intRepr h ++ ":"
    ++ intRepr x ++ ":" ++ intRepr y ++ ",scale=" ++ natRepr srcW ++ ":" ++ natRepr srcH
    ++ ":flags=lanczos,setsar=1[seg" ++ natRepr i ++ "]"

/-- The transition-local progress expression `p = clip(n/trans_frames, 0, 1)`
(commas escaped for filter_complex). -/
def pExprOf (trans_frames : ℤ) : String :=
  "clip(n/" ++ intRepr trans_frames ++ "\\,0\\,1)"

/-- The smoothstep easing expression `s = (p*p*(3-2*p))`. -/
def smoothstepOf (p : String) : String :=
  ("(" ++ p ++ "*" ++ p ++ "*") ++ "(3-2*" ++ (p ++ "))")

/-- An eased-state expression `start + delta*s` with the given decimals. -/
def easedExpr (d : ℕ) (start delta : ℚ) (s : String) : String :=
  (pyFmt d start ++ "+" ++ pyFmt d delta ++ "*") ++ s

/-- The animated crop expression for a window dimension:
`max(2, floor(src/zoom/2)*2)`. -/
def dimExpr (src : ℕ) (zE : String) : String :=
  ("max(2\\,floor(" ++ natRepr src ++ "/(") ++ zE ++ ")/2)*2)"

/-- The animated crop expression for a window origin:
`clip(c - w/2, 0, src - w)`. -/
def originExpr (src : ℕ) (cE wE : String) : String :=
  "clip((" ++ cE ++ ")-(" ++ wE ++ ")/2\\,0\\," ++ natRepr src ++ "-(" ++ wE ++ "))"

/-- The animated (smoothstep-interpolated) segment filter. -/
def animSegFilter (i : ℕ) (zE cxE cyE : String) (srcW srcH : ℕ) : String :=
  ("[seg" ++ natRepr i ++ "_raw]crop=w='")
    ++ dimExpr srcW zE
    ++ ("':h='" ++ dimExpr srcH zE ++ "':x='" ++ originExpr srcW cxE (dimExpr srcW zE)
      ++ "':y='" ++ originExpr srcH cyE (dimExpr srcH zE) ++ "',scale=" ++ natRepr srcW
      ++ ":" ++ natRepr srcH ++ ":flags=lanczos,setsar=1[seg" ++ natRepr i ++ "]")

/-- The crop/scale filter emitted for the segment between consecutive
keyframes `prev` and `curr` (the third `parts.append` of the loop body of
`_build_zoom_filter_complex`): a static crop when zoom and center are within
the tolerances (`< 0.001` zoom, `< 1` pixel center), else the smoothstep
interpolation. -/
def segFilterFor (i : ℕ) (prev curr : CameraKeyframe) (fps srcW srcH : ℕ) : String :=
  if pyAbs (prev.zoom - curr.zoom) < 1/1000 ∧ pyAbs (prev.cx - curr.cx) < 1
      ∧ pyAbs (prev.cy - curr.cy) < 1 then
    staticSegFilter i
      (max 2 (Int.fdiv (pyInt ((srcW : ℚ) / curr.zoom)) 2 * 2))
      (max 2 (Int.fdiv (pyInt ((srcH : ℚ) / curr.zoom)) 2 * 2))
      (max 0 (min (pyInt (curr.cx - (max 2 (Int.fdiv (pyInt ((srcW : ℚ) / curr.zoom)) 2 * 2) : ℤ) / 2))
        ((srcW : ℤ) - max 2 (Int.fdiv (pyInt ((srcW : ℚ) / curr.zoom)) 2 * 2))))
      (max 0 (min (pyInt (curr.cy - (max 2 (Int.fdiv (pyInt ((srcH : ℚ) / curr.zoom)) 2 * 2) : ℤ) / 2))
        ((srcH : ℤ) - max 2 (Int.fdiv (pyInt ((srcH : ℚ) / curr.zoom)) 2 * 2))))
      srcW srcH
  else
    animSegFilter i
      (easedExpr 3 prev.zoom (curr.zoom - prev.zoom)
        (smoothstepOf (pExprOf (max 1 (pyInt (min (curr.transition_ms / 1000) (curr.time - prev.time) * fps))))))
      (easedExpr 1 prev.cx (curr.cx - prev.cx)
        (smoothstepOf (pExprOf (max 1 (pyInt (min (curr.transition_ms / 1000) (curr.time - prev.time) * fps))))))
      (easedExpr 1 prev.cy (curr.cy - prev.cy)
        (smoothstepOf (pExprOf (max 1 (pyInt (min (curr.transition_ms / 1000) (curr.time - prev.time) * fps))))))
      srcW srcH

/-- The video trim part emitted for segment `i`. -/
def trimPart (i : ℕ) (prev curr : CameraKeyframe) : String :=
  "[0:v]trim=start=" ++ pyFmt 4 prev.time ++ ":end=" ++ pyFmt 4 curr.time
    ++ ",setpts=PTS-STARTPTS[seg" ++ natRepr i ++ "_raw]"

/-- The audio trim part emitted for segment `i`. -/
def atrimPart (i : ℕ) (prev curr : CameraKeyframe) : String :=
  "[0:a]atrim=start=" ++ pyFmt 4 prev.time ++ ":end=" ++ pyFmt 4 curr.time
    ++ ",asetpts=PTS-STARTPTS[aseg" ++ natRepr i ++ "]"

/-- The filter parts and concat labels of one consecutive keyframe pair
(skipped entirely when the segment duration is not positive). -/
def segEntry (fps srcW srcH : ℕ) (ipc : ℕ × CameraKeyframe × CameraKeyframe) :
    Option (List String × String) :=
  if ipc.2.2.time - ipc.2.1.time ≤ 0 then none
  else
    some ([trimPart (ipc.1 + 1) ipc.2.1 ipc.2.2, atrimPart (ipc.1 + 1) ipc.2.1 ipc.2.2,
        segFilterFor (ipc.1 + 1) ipc.2.1 ipc.2.2 fps srcW srcH],
      "[seg" ++ natRepr (ipc.1 + 1) ++ "][aseg" ++ natRepr (ipc.1 + 1) ++ "]")

/-- `_build_zoom_filter_complex(keyframes, fps, src_w, src_h)`: consume the
keyframes pairwise, emit trim/crop parts per positive-duration segment, and
concat all segments back; empty when fewer than two keyframes or no
segments. -/
def build_zoom_filter_complex (keyframes : List CameraKeyframe)
    (fps srcW srcH : ℕ) : String :=
  if keyframes.length < 2 then ""
  else
    match ((keyframes.zip keyframes.tail).enum).filterMap (segEntry fps srcW srcH) with
    | [] => ""
    | entries =>
      String.intercalate ";"
        ((entries.map Prod.fst).flatten
          ++ [String.join (entries.map Prod.snd) ++ "concat=n="
              ++ natRepr entries.length ++ ":v=1:a=1[vout][aout]"])

/-! ## Lemmas about the Python primitives -/

lemma pyInt_eq (z : ℤ) (q : ℚ) (h0 : 0 ≤ q) (h1 : (z : ℚ) ≤ q) (h2 : q < z + 1) :
    pyInt q = z := by
  unfold pyInt
  rw [if_neg (not_lt.2 h0)]
  exact Int.floor_eq_iff.mpr ⟨h1, h2⟩

lemma pyInt_nonneg (q : ℚ) (h : 0 ≤ q) : 0 ≤ pyInt q := by
  unfold pyInt
  rw [if_neg (not_lt.2 h)]
  positivity

lemma pyInt_le (q : ℚ) (h : 0 ≤ q) : (pyInt q : ℚ) ≤ q := by
  unfold pyInt
  rw [if_neg (not_lt.2 h)]
  exact Int.floor_le q

lemma lt_pyInt_add_one (q : ℚ) (h : 0 ≤ q) : q < pyInt q + 1 := by
  unfold pyInt
  rw [if_neg (not_lt.2 h)]
  exact_mod_cast Int.lt_floor_add_one q

lemma pyRound_le (q : ℚ) : (pyRound q : ℚ) ≤ q + 1/2 := by
  unfold pyRound
  have h1 : (⌊q⌋ : ℚ) ≤ q := Int.floor_le q
  have h2 : q < ⌊q⌋ + 1 := Int.lt_floor_add_one q
  split_ifs <;> push_cast <;> linarith

lemma le_pyRound (q : ℚ) : q - 1/2 ≤ (pyRound q : ℚ) := by
  unfold pyRound
  have h1 : (⌊q⌋ : ℚ) ≤ q := Int.floor_le q
  have h2 : q < ⌊q⌋ + 1 := Int.lt_floor_add_one q
  split_ifs <;> push_cast <;> linarith

lemma pyRound_intCast (z : ℤ) : pyRound (z : ℚ) = z := by
  unfold pyRound
  norm_num

lemma pyAbs_zero_of_eq (a b : ℚ) (h : a = b) : pyAbs (a - b) = 0 := by
  subst h
  simp [pyAbs]

lemma digitChar_mem (n : ℕ) : digitChar n ∈ ("0123456789").data := by
  unfold digitChar
  have h : n % 10 < 10 := Nat.mod_lt _ (by omega)
  set m := n % 10 with hm
  interval_cases m <;> decide

lemma natDigitsGo_chars (fuel : ℕ) :
    ∀ n acc c, c ∈ natDigitsGo fuel n acc → c ∈ acc ∨ c ∈ ("0123456789").data := by
  induction fuel with
  | zero => intro n acc c hc; exact Or.inl hc
  | succ fuel ih =>
    intro n acc c hc
    unfold natDigitsGo at hc
    split at hc
    · rcases List.mem_cons.mp hc with h | h
      · exact Or.inr (h ▸ digitChar_mem n)
      · exact Or.inl h
    · rcases ih _ _ _ hc with h | h
      · rcases List.mem_cons.mp h with h2 | h2
        · exact Or.inr (h2 ▸ digitChar_mem n)
        · exact Or.inl h2
      · exact Or.inr h

lemma natRepr_chars (n : ℕ) : ∀ c ∈ (natRepr n).data, c ∈ ("0123456789").data := by
  intro c hc
  rcases natDigitsGo_chars (n + 1) n [] c hc with h | h
  · cases h
  · exact h

lemma string_data_append (a b : String) : (a ++ b).data = a.data ++ b.data :=
  String.data_append a b

lemma intRepr_chars (z : ℤ) : ∀ c ∈ (intRepr z).data, c ∈ ("-0123456789").data := by
  have hsub : ∀ x ∈ ("0123456789").data, x ∈ ("-0123456789").data := by decide
  have hdash : ∀ x ∈ ("-" : String).data, x ∈ ("-0123456789").data := by decide
  intro c hc
  unfold intRepr at hc
  split at hc
  · rw [string_data_append] at hc
    rcases List.mem_append.mp hc with h | h
    · exact hdash c h
    · exact hsub c (natRepr_chars _ c h)
  · exact hsub c (natRepr_chars _ c hc)

lemma replicate_zero_chars (k : ℕ) :
    ∀ c ∈ (String.mk (List.replicate k '0')).data, c ∈ ("-.0123456789").data := by
  intro c hc
  have h := List.eq_of_mem_replicate hc
  subst h
  decide

lemma pyFmt_chars (d : ℕ) (q : ℚ) : ∀ c ∈ (pyFmt d q).data, c ∈ ("-.0123456789").data := by
  have digit_ok : ∀ x ∈ ("0123456789").data, x ∈ ("-.0123456789").data := by decide
  have hdash : ∀ x ∈ ("-" : String).data, x ∈ ("-.0123456789").data := by decide
  have hdot : ∀ x ∈ ("." : String).data, x ∈ ("-.0123456789").data := by decide
  have hemp : ∀ x ∈ ("" : String).data, x ∈ ("-.0123456789").data := by decide
  intro c hc
  unfold pyFmt at hc
  rw [string_data_append, string_data_append, string_data_append, string_data_append] at hc
  rcases List.mem_append.mp hc with h | h
  · rcases List.mem_append.mp h with h | h
    · rcases List.mem_append.mp h with h | h
      · rcases List.mem_append.mp h with h | h
        · split at h
          · exact hdash c h
          · exact hemp c h
        · exact digit_ok c (natRepr_chars _ c h)
      · exact hdot c h
    · exact replicate_zero_chars _ c h
  · exact digit_ok c (natRepr_chars _ c h)

lemma containsSub_refl (pat : String) : containsSub pat pat :=
  ⟨[], [], by simp⟩

lemma containsSub_app_left (pat a b : String) (h : containsSub pat a) :
    containsSub pat (a ++ b) := by
  unfold containsSub at h ⊢
  rw [string_data_append]
  exact h.trans ⟨[], b.data, by simp⟩

lemma containsSub_app_right (pat a b : String) (h : containsSub pat b) :
    containsSub pat (a ++ b) := by
  unfold containsSub at h ⊢
  rw [string_data_append]
  exact h.trans ⟨a.data, [], by simp⟩

lemma not_containsSub_of_chars (pat s : String) (c : Char) (hc : c ∈ pat.data)
    (hs : c ∉ s.data) : ¬ containsSub pat s := by
  intro h
  exact hs (h.subset hc)

/-! ## C10: `settings.mode` normalization -/

/-- C10: spec validation normalizes `settings.mode` before checking it: any
value equal to `independent` or `continuous` after strip+lower is accepted and
stored in that canonical lowercase form, an absent mode defaults to
`independent`, and every other value is rejected with a validation error. -/
theorem mode_normalization :
    load_tour_spec_mode none = Except.ok "independent" ∧
    ∀ v : String,
      ((pyLower (pyStrip v) = "independent" ∨ pyLower (pyStrip v) = "continuous") →
        load_tour_spec_mode (some v) = Except.ok (pyLower (pyStrip v))) ∧
      (¬ (pyLower (pyStrip v) = "independent" ∨ pyLower (pyStrip v) = "continuous") →
        load_tour_spec_mode (some v)
          = Except.error "Spec settings.mode must be independent or continuous") := by
  refine ⟨rfl, ?_⟩
  intro v
  constructor
  · intro h
    unfold load_tour_spec_mode
    rw [Option.getD_some, if_pos h]
  · intro h
    unfold load_tour_spec_mode
    rw [Option.getD_some, if_neg h]

/-- Witness for C10 at a concrete mode value needing both strip and lower. -/
theorem mode_normalization_witness :
    load_tour_spec_mode (some " Continuous ") = Except.ok "continuous" := by
  have h := (mode_normalization.2 " Continuous ").1
  have e : pyLower (pyStrip " Continuous ") = "continuous" := by decide
  rw [e] at h
  exact h (Or.inr rfl)

/-! ## C5: per-step mux lead-in and last-frame padding -/

/-- C5: `mux_audio_with_offset` always delays the narration by a fixed
1-second lead-in (`adelay=1000|1000`), and when the normalized clip is shorter
than `audio_duration + 1.0` the video is tpad-cloned by exactly the missing
amount, extending it to `audio_duration + 1.0` so the audio is never truncated
to fit the video. -/
theorem mux_lead_in_and_padding (base audio : ℚ) :
    "[1:a]adelay=1000|1000,asetpts=PTS-STARTPTS[a]"
        ∈ (mux_audio_with_offset base audio).filter_parts ∧
    audio + 1 ≤ base + (mux_audio_with_offset base audio).extra ∧
    (base < audio + 1 →
      base + (mux_audio_with_offset base audio).extra = audio + 1 ∧
      "[0:v]tpad=stop_mode=clone:stop_duration=" ++ pyFmt 3 (audio + 1 - base) ++ "[v0]"
        ∈ (mux_audio_with_offset base audio).filter_parts) := by
  unfold mux_audio_with_offset
  rcases lt_or_le base (audio + 1) with hlt | hle
  · have hmax : max 0 (audio + 1 - base) = audio + 1 - base := max_eq_right (by linarith)
    rw [hmax, if_pos (by linarith)]
    refine ⟨by simp, by dsimp only; linarith, fun _ => ⟨by dsimp only; ring, by simp⟩⟩
  · have hmax : max 0 (audio + 1 - base) = 0 := max_eq_left (by linarith)
    rw [hmax, if_neg (lt_irrefl 0)]
    exact ⟨by simp, by dsimp only; linarith, fun h2 => absurd h2 (not_lt.2 hle)⟩

/-- Witness for C5 at `base = 1`, `audio = 3`. -/
theorem mux_lead_in_and_padding_witness :
    (1 : ℚ) < 3 + 1 ∧ 1 + (mux_audio_with_offset 1 3).extra = 3 + 1 :=
  ⟨by norm_num, ((mux_lead_in_and_padding 1 3).2.2 (by norm_num)).1⟩

/-! ## C2: independent-mode retry accounting -/

lemma captureStepGo_spec (succeeds : ℕ → Bool) :
    ∀ k a r, k ≤ r → (∀ n, a ≤ n → n < a + k → succeeds n = false) →
      succeeds (a + k) = true → captureStepGo succeeds a r = (a + k, true) := by
  intro k
  induction k with
  | zero =>
    intro a r _ _ hs
    cases r with
    | zero => simp [captureStepGo, show succeeds a = true from by simpa using hs]
    | succ r2 => simp [captureStepGo, show succeeds a = true from by simpa using hs]
  | succ k ih =>
    intro a r hk hf hs
    cases r with
    | zero => omega
    | succ r2 =>
      have hfa : succeeds a = false := hf a le_rfl (by omega)
      have h2 := ih (a + 1) r2 (by omega) (fun n hn1 hn2 => hf n (by omega) (by omega))
        (by rw [show a + 1 + k = a + (k + 1) from by omega]; exact hs)
      calc captureStepGo succeeds a (r2 + 1)
          = captureStepGo succeeds (a + 1) r2 := by simp [captureStepGo, hfa]
        _ = (a + 1 + k, true) := h2
        _ = (a + (k + 1), true) := by rw [show a + 1 + k = a + (k + 1) from by omega]

/-- C2: in independent-mode capture, a step whose per-attempt capture fails on
each of the first `k` attempts (with `k ≤ max_retries_per_step`) and succeeds
on attempt `k+1` is recorded as `StepResult` with `attempt_count = k+1` and
`success = true`. -/
theorem retry_attempt_count (step : Step) (audio : AudioInfo) (succeeds : ℕ → Bool)
    (max_retries k : ℕ) (hk : k ≤ max_retries)
    (hfail : ∀ n, 1 ≤ n → n ≤ k → succeeds n = false)
    (hsucc : succeeds (k + 1) = true) :
    (run_capture_step step audio succeeds max_retries).attempt_count = k + 1 ∧
    (run_capture_step step audio succeeds max_retries).success = true := by
  have h := captureStepGo_spec succeeds k 1 max_retries hk
    (fun n h1 h2 => hfail n h1 (by omega))
    (by rw [show 1 + k = k + 1 from by omega]; exact hsucc)
  unfold run_capture_step
  rw [h]
  exact ⟨by simp [Nat.add_comm], by simp⟩

/-- Witness for C2: `max_retries_per_step = 2`, failures on attempts 1 and 2,
success on attempt 3, yields `attempt_count = 3` and `success = true`. -/
theorem retry_attempt_count_witness :
    (run_capture_step { id := "s1" } { path := "a.wav", duration := 3 }
        (fun n => n == 3) 2).attempt_count = 3 ∧
    (run_capture_step { id := "s1" } { path := "a.wav", duration := 3 }
        (fun n => n == 3) 2).success = true := by
  have h := retry_attempt_count { id := "s1" } { path := "a.wav", duration := 3 }
    (fun n => n == 3) 2 2 (le_refl 2)
    (fun n h1 h2 => by interval_cases n <;> decide) (by decide)
  exact ⟨by simpa using h.1, h.2⟩

/-! ## C4: independent-mode assembly requires all steps successful -/

lemma assembleGo_error (results : List StepResult) :
    ∀ acc, (∃ r ∈ results, r.success = false ∨ r.clip_path = none) →
      ∃ e, assembleGo results acc = Except.error e := by
  induction results with
  | nil =>
    intro acc h
    rcases h with ⟨r, hr, _⟩
    cases hr
  | cons r rest ih =>
    intro acc h
    by_cases hbad : r.success = false ∨ r.clip_path = none
    · refine ⟨"Cannot assemble failed step " ++ r.step_id, ?_⟩
      simp only [assembleGo]
      rw [if_pos hbad]
    · rcases h with ⟨r2, hr2, hb2⟩
      rcases List.mem_cons.mp hr2 with rfl | hmem
      · exact absurd hb2 hbad
      · rcases ih (acc ++ ["step-" ++ r.step_id ++ "-muxed.mp4"]) ⟨r2, hmem, hb2⟩ with ⟨e, he⟩
        refine ⟨e, ?_⟩
        simp only [assembleGo]
        rw [if_neg hbad]
        exact he

/-- C4: `assemble_video` requires every `StepResult` to have succeeded: a
results list containing any result with `success = false` or no clip path
makes assembly fail with an error (no final video is produced). -/
theorem assembly_requires_success (results : List StepResult) (outPath : String)
    (target : ℚ) (loudnorm : Bool)
    (h : ∃ r ∈ results, r.success = false ∨ r.clip_path = none) :
    ∃ e, assemble_video results outPath target loudnorm = Except.error e := by
  rcases assembleGo_error results [] h with ⟨e, he⟩
  exact ⟨e, by simp [assemble_video, he, Except.map]⟩

/-- Witness for C4 at a one-element failed results list. -/
theorem assembly_requires_success_witness :
    ∃ e, assemble_video
        [{ step_id := "s1", attempt_count := 3, success := false, clip_path := none,
            audio_path := "a.wav", audio_duration := 1, step_elapsed := 0 }]
        "out.mp4" 10 true = Except.error e :=
  assembly_requires_success _ _ _ _ ⟨_, List.mem_singleton.mpr rfl, Or.inl rfl⟩

/-! ## C1: overlong narration fails synchronization before capture -/

lemma prerenderGo_error_of_overflow (env : TtsEnv) (target : ℚ) :
    ∀ (steps : List Step) (total : ℚ) (acc : List (String × AudioInfo)),
      target < total + (steps.map (fun s => stepDuration env s.id)).sum →
      ∃ e, prerenderGo env target steps total acc = Except.error e := by
  intro steps
  induction steps with
  | nil =>
    intro total acc h
    refine ⟨"Total narration duration exceeds target_duration_seconds", ?_⟩
    simp only [prerenderGo]
    rw [if_pos (by simpa using h)]
  | cons s rest ih =>
    intro total acc h
    simp only [prerenderGo]
    by_cases h1 : pyStrip s.narration = ""
    · rw [if_pos h1]
      exact ⟨_, rfl⟩
    · rw [if_neg h1]
      by_cases h2 : env.skip_tts ∧ env.wavExists s.id = false
      · rw [if_pos h2]
        exact ⟨_, rfl⟩
      · rw [if_neg h2]
        apply ih
        simp only [List.map_cons, List.sum_cons] at h
        linarith

/-- C1: if the sum of per-step audio durations exceeds
`target_duration_seconds` then `prerender_tts` fails with an error, and the
failure happens before capture starts: in the traditional workflow of `main`,
neither `run_capture_phase` nor `run_continuous_capture` is invoked. -/
theorem narration_budget_gate (tts : TtsEnv) (cont : ContEnv)
    (succeeds : String → ℕ → Bool) (steps : List Step) (target : ℚ)
    (max_retries : ℕ) (mode : String) (dry_run : Bool)
    (h : target < totalNarration tts steps) :
    (∃ e, prerender_tts tts steps target = Except.error e) ∧
    (mainTraditional tts cont succeeds steps target max_retries mode dry_run).2 = false := by
  rcases prerenderGo_error_of_overflow tts target steps 0 []
      (by simpa [totalNarration] using h) with ⟨e, he⟩
  have he2 : prerender_tts tts steps target = Except.error e := he
  refine ⟨⟨e, he2⟩, ?_⟩
  unfold mainTraditional
  rw [he2]

/-- Witness for C1: one 6-second narration against a 5-second target fails
synchronization. -/
theorem narration_budget_gate_witness :
    (∃ e, prerender_tts { ttsDuration := fun _ => 6 } [{ id := "s1", narration := "hello" }] 5
      = Except.error e) ∧
    (mainTraditional { ttsDuration := fun _ => 6 } {} (fun _ _ => true)
      [{ id := "s1", narration := "hello" }] 5 0 "independent" false).2 = false := by
  exact narration_budget_gate { ttsDuration := fun _ => 6 } {} (fun _ _ => true)
    [{ id := "s1", narration := "hello" }] 5 0 "independent" false
    (by norm_num [totalNarration, stepDuration])

/-! ## Continuous-mode capture invariants (C3, C6, C9) -/

lemma contResult_video_offset (env : ContEnv) (sa : String → AudioInfo) (step : Step)
    (i : ℕ) (clock : ℚ) : (contResult env sa step i clock).video_offset = clock :=
  rfl

lemma endOffsetD_contResult (env : ContEnv) (sa : String → AudioInfo) (step : Step)
    (i : ℕ) (clock : ℚ) :
    endOffsetD (contResult env sa step i clock) = contStepEnd env sa step i clock :=
  rfl

lemma contResult_audio_duration (env : ContEnv) (sa : String → AudioInfo) (step : Step)
    (i : ℕ) (clock : ℚ) :
    (contResult env sa step i clock).audio_duration = (sa step.id).duration :=
  rfl

lemma update_clip_video_offset (r : StepResult) (c : Option String) :
    ({ r with clip_path := c } : StepResult).video_offset = r.video_offset :=
  rfl

lemma update_clip_audio_duration (r : StepResult) (c : Option String) :
    ({ r with clip_path := c } : StepResult).audio_duration = r.audio_duration :=
  rfl

lemma endOffsetD_update_clip (r : StepResult) (c : Option String) :
    endOffsetD ({ r with clip_path := c } : StepResult) = endOffsetD r :=
  rfl

lemma contStepEnd_lb (env : ContEnv) (sa : String → AudioInfo) (step : Step)
    (i : ℕ) (clock : ℚ) (henv : env.Nonneg) (haud : ∀ id, 0 ≤ (sa id).duration) :
    clock + (sa step.id).duration + 999/1000 ≤ contStepEnd env sa step i clock := by
  obtain ⟨_, hall⟩ := henv
  obtain ⟨hact, hslack, _⟩ := hall i
  have hd : 0 ≤ (sa step.id).duration := haud step.id
  have harg : (0 : ℚ) ≤ ((sa step.id).duration + 1) * 1000 := by
    have h1 : (0 : ℚ) ≤ (sa step.id).duration + 1 := by linarith
    exact mul_nonneg h1 (by norm_num)
  have hlb := lt_pyInt_add_one _ harg
  unfold contStepEnd
  linarith

lemma contStepEnd_ge (env : ContEnv) (sa : String → AudioInfo) (step : Step)
    (i : ℕ) (clock : ℚ) (henv : env.Nonneg) (haud : ∀ id, 0 ≤ (sa id).duration) :
    clock ≤ contStepEnd env sa step i clock := by
  obtain ⟨_, hall⟩ := henv
  obtain ⟨hact, hslack, _⟩ := hall i
  have hd : 0 ≤ (sa step.id).duration := haud step.id
  have harg : (0 : ℚ) ≤ ((sa step.id).duration + 1) * 1000 := by
    have h1 : (0 : ℚ) ≤ (sa step.id).duration + 1 := by linarith
    exact mul_nonneg h1 (by norm_num)
  have hnn : (0 : ℚ) ≤ (pyInt (((sa step.id).duration + 1) * 1000) : ℚ) := by
    exact_mod_cast pyInt_nonneg _ harg
  unfold contStepEnd
  linarith

lemma contGo_invariant (env : ContEnv) (sa : String → AudioInfo)
    (henv : env.Nonneg) (haud : ∀ id, 0 ≤ (sa id).duration) :
    ∀ (steps : List Step) (i : ℕ) (clock : ℚ),
      (∀ r ∈ contGo env sa steps i clock,
        r.video_offset ≤ endOffsetD r ∧
        r.video_offset + r.audio_duration + 999/1000 ≤ endOffsetD r) ∧
      List.Chain' (fun a b => endOffsetD a ≤ b.video_offset) (contGo env sa steps i clock) ∧
      (∀ r ∈ (contGo env sa steps i clock).head?, r.video_offset = clock) := by
  intro steps
  induction steps with
  | nil =>
    intro i clock
    refine ⟨by simp [contGo], by simp [contGo], by simp [contGo]⟩
  | cons step rest ih =>
    intro i clock
    obtain ⟨ihPt, ihCh, ihHd⟩ := ih (i + 1) (contStepEnd env sa step i clock + env.post i)
    have hpost : 0 ≤ env.post i := (henv.2 i).2.2
    refine ⟨?_, ?_, ?_⟩
    · intro r hr
      simp only [contGo] at hr
      rcases List.mem_cons.mp hr with rfl | hmem
      · rw [contResult_video_offset, endOffsetD_contResult, contResult_audio_duration]
        exact ⟨contStepEnd_ge env sa step i clock henv haud,
          contStepEnd_lb env sa step i clock henv haud⟩
      · exact ihPt r hmem
    · simp only [contGo]
      apply List.Chain'.cons' ihCh
      intro y hy
      have hvo := ihHd y hy
      rw [endOffsetD_contResult, hvo]
      linarith
    · intro r hr
      simp only [contGo, List.head?_cons, Option.mem_def, Option.some.injEq] at hr
      rw [← hr, contResult_video_offset]

/-- C3: continuous-mode capture is monotonic in offsets: every produced
`StepResult` satisfies `video_offset ≤ step_end_offset`, and for consecutive
results `step_end_offset[i] ≤ video_offset[i+1]`. -/
theorem continuous_offsets_monotone (env : ContEnv) (steps : List Step)
    (sa : String → AudioInfo) (henv : env.Nonneg)
    (haud : ∀ id, 0 ≤ (sa id).duration) :
    (∀ r ∈ run_continuous_capture env steps sa false, r.video_offset ≤ endOffsetD r) ∧
    List.Chain' (fun a b => endOffsetD a ≤ b.video_offset)
      (run_continuous_capture env steps sa false) := by
  obtain ⟨hPt, hCh, _⟩ := contGo_invariant env sa henv haud steps 0 env.startup
  cases hgo : contGo env sa steps 0 env.startup with
  | nil =>
    have hrun : run_continuous_capture env steps sa false = [] := by
      unfold run_continuous_capture
      rw [if_neg (by simp), hgo]
    rw [hrun]
    exact ⟨by simp, by simp⟩
  | cons r rest =>
    rw [hgo] at hPt hCh
    have hrun : run_continuous_capture env steps sa false
        = { r with clip_path := some "continuous.webm" } :: rest := by
      unfold run_continuous_capture
      rw [if_neg (by simp), hgo]
    rw [hrun]
    constructor
    · intro x hx
      rcases List.mem_cons.mp hx with rfl | hmem
      · rw [update_clip_video_offset, endOffsetD_update_clip]
        exact (hPt r (List.mem_cons_self r rest)).1
      · exact (hPt x (List.mem_cons_of_mem r hmem)).1
    · rcases List.chain'_cons'.mp hCh with ⟨hhd, htl⟩
      refine List.chain'_cons'.mpr ⟨?_, htl⟩
      intro y hy
      rw [endOffsetD_update_clip]
      exact hhd y hy

/-- Witness for C3 at a concrete one-step run. -/
theorem continuous_offsets_monotone_witness :
    (∀ r ∈ run_continuous_capture {} [{ id := "s1" }]
        (fun _ => { path := "a.wav", duration := 1 }) false,
      r.video_offset ≤ endOffsetD r) ∧
    List.Chain' (fun a b => endOffsetD a ≤ b.video_offset)
      (run_continuous_capture {} [{ id := "s1" }]
        (fun _ => { path := "a.wav", duration := 1 }) false) := by
  exact continuous_offsets_monotone {} [{ id := "s1" }]
    (fun _ => { path := "a.wav", duration := 1 })
    ⟨le_refl 0, fun i => ⟨le_refl 0, le_refl 0, le_refl 0⟩⟩
    (fun id => by norm_num)

/-! ## C6: continuous-mode narration placement -/

lemma narrationStart_le (r : StepResult) :
    narrationStart r ≤ r.video_offset + 1 + 1/2000 := by
  unfold narrationStart narrationDelayMs
  have h := pyRound_le ((r.video_offset + 1) * 1000)
  linarith

lemma le_narrationStart (r : StepResult) :
    r.video_offset + 1 - 1/2000 ≤ narrationStart r := by
  unfold narrationStart narrationDelayMs
  have h := le_pyRound ((r.video_offset + 1) * 1000)
  linarith

lemma narration_no_overlap_key (a b : StepResult)
    (ha : a.video_offset + a.audio_duration + 999/1000 ≤ endOffsetD a)
    (hab : endOffsetD a ≤ b.video_offset) :
    narrationEnd a ≤ b.video_offset + 3/2000 ∧ narrationEnd a < narrationStart b := by
  have h1 := narrationStart_le a
  have h2 := le_narrationStart b
  unfold narrationEnd
  constructor
  · linarith
  · linarith

lemma narrationStart_update_clip (r : StepResult) (c : Option String) :
    narrationStart ({ r with clip_path := c } : StepResult) = narrationStart r :=
  rfl

lemma narrationEnd_update_clip (r : StepResult) (c : Option String) :
    narrationEnd ({ r with clip_path := c } : StepResult) = narrationEnd r :=
  rfl

/-- C6 (amended): in continuous mode the narration of each step is overlaid at
delay `round((video_offset + 1.0)*1000)` ms and the hold lasts
`int((audio_duration + 1.0)*1000)` ms, so for consecutive steps the delayed
narration of step `i` ends at or before `video_offset[i+1] + 0.0015 s` (the
millisecond truncation of the hold and the rounding of the delay can lose up
to 1.5 ms), and — because the narration of step `i+1` only starts another full
second later — strictly before the narration of step `i+1` starts: no two
overlaid narration tracks overlap. -/
theorem continuous_narration_no_overlap (env : ContEnv) (steps : List Step)
    (sa : String → AudioInfo) (henv : env.Nonneg)
    (haud : ∀ id, 0 ≤ (sa id).duration) :
    List.Chain'
      (fun a b => narrationEnd a ≤ b.video_offset + 3/2000 ∧ narrationEnd a < narrationStart b)
      (run_continuous_capture env steps sa false) := by
  obtain ⟨hPt, hCh, _⟩ := contGo_invariant env sa henv haud steps 0 env.startup
  cases hgo : contGo env sa steps 0 env.startup with
  | nil =>
    have hrun : run_continuous_capture env steps sa false = [] := by
      unfold run_continuous_capture
      rw [if_neg (by simp), hgo]
    rw [hrun]
    simp
  | cons r rest =>
    rw [hgo] at hPt hCh
    have hrun : run_continuous_capture env steps sa false
        = { r with clip_path := some "continuous.webm" } :: rest := by
      unfold run_continuous_capture
      rw [if_neg (by simp), hgo]
    rw [hrun]
    have hCh2 : List.Chain'
        (fun a b => narrationEnd a ≤ b.video_offset + 3/2000 ∧ narrationEnd a < narrationStart b)
        (r :: rest) := by
      have hMem := List.Chain'.iff_mem.mp hCh
      refine hMem.imp ?_
      intro a b hab
      exact narration_no_overlap_key a b (hPt a hab.1).2 hab.2.2
    rcases List.chain'_cons'.mp hCh2 with ⟨hhd, htl⟩
    refine List.chain'_cons'.mpr ⟨?_, htl⟩
    intro y hy
    rw [narrationEnd_update_clip]
    exact hhd y hy

/-- Witness for the amended C6 at a concrete two-step run. -/
theorem continuous_narration_no_overlap_witness :
    List.Chain'
      (fun a b => narrationEnd a ≤ b.video_offset + 3/2000 ∧ narrationEnd a < narrationStart b)
      (run_continuous_capture {} [{ id := "s1" }, { id := "s2" }]
        (fun _ => { path := "a.wav", duration := 2 }) false) := by
  exact continuous_narration_no_overlap {} [{ id := "s1" }, { id := "s2" }]
    (fun _ => { path := "a.wav", duration := 2 })
    ⟨le_refl 0, fun i => ⟨le_refl 0, le_refl 0, le_refl 0⟩⟩
    (fun id => by norm_num)

/-- Counterexample to C6 as stated: with a narration of 0.0005 s, the hold is
`int(1000.5) = 1000` ms, so with zero overheads `video_offset[1] = 1.0` while
the delayed narration of step 0 ends at `1.0005 > video_offset[1]`. -/
theorem continuous_narration_cx :
    ∃ r0 r1 : StepResult,
      run_continuous_capture {} [{ id := "s1" }, { id := "s2" }]
          (fun _ => { path := "step.wav", duration := 1/2000 }) false = [r0, r1] ∧
      ¬ (narrationEnd r0 ≤ r1.video_offset) := by
  refine ⟨_, _, rfl, ?_⟩
  have hint : pyInt (((1 : ℚ)/2000 + 1) * 1000) = 1000 :=
    pyInt_eq 1000 _ (by norm_num) (by norm_num) (by norm_num)
  have hround : pyRound (((0 : ℚ) + 1) * 1000) = 1000 := by
    rw [show ((0 : ℚ) + 1) * 1000 = ((1000 : ℤ) : ℚ) by norm_num]
    exact pyRound_intCast 1000
  unfold narrationEnd narrationStart narrationDelayMs
  rw [update_clip_video_offset, update_clip_audio_duration, contResult_video_offset,
    contResult_audio_duration, contResult_video_offset]
  unfold contStepEnd
  simp only []
  rw [hint, hround]
  push_cast
  norm_num

/-! ## C9: exactly one result carries the continuous clip -/

lemma contGo_clip_none (env : ContEnv) (sa : String → AudioInfo) :
    ∀ (steps : List Step) (i : ℕ) (clock : ℚ) (r : StepResult),
      r ∈ contGo env sa steps i clock → r.clip_path = none := by
  intro steps
  induction steps with
  | nil => intro i clock r hr; simp [contGo] at hr
  | cons s rest ih =>
    intro i clock r hr
    simp only [contGo] at hr
    rcases List.mem_cons.mp hr with rfl | hm
    · rfl
    · exact ih _ _ r hm

/-- C9: in continuous-mode capture, exactly one `StepResult` carries the
recorded clip: the `clip_path` of the first result is the single continuous
clip and the `clip_path` of every other result is `None`; continuous-mode assembly then
selects that first non-`None` clip path as its sole source clip. -/
theorem continuous_single_clip (env : ContEnv) (steps : List Step)
    (sa : String → AudioInfo) (h : steps ≠ []) :
    ∃ r0 rest, run_continuous_capture env steps sa false = r0 :: rest ∧
      r0.clip_path = some "continuous.webm" ∧
      (∀ r ∈ rest, r.clip_path = none) ∧
      ∀ (loudnorm : Bool) (maxDur : ℚ), ∃ plan,
        assemble_continuous_video (r0 :: rest) loudnorm maxDur = Except.ok plan ∧
        plan.source_clip = "continuous.webm" := by
  cases steps with
  | nil => exact absurd rfl h
  | cons s ss =>
    refine ⟨{ contResult env sa s 0 env.startup with clip_path := some "continuous.webm" },
      contGo env sa ss 1 (contStepEnd env sa s 0 env.startup + env.post 0), ?_, rfl, ?_, ?_⟩
    · unfold run_continuous_capture
      rw [if_neg (by simp)]
      rfl
    · intro r hr
      exact contGo_clip_none env sa ss 1 _ r hr
    · intro loudnorm maxDur
      exact ⟨_, rfl, rfl⟩

/-- Witness for C9 at a concrete one-step run. -/
theorem continuous_single_clip_witness :
    ∃ r0 rest, run_continuous_capture {} [{ id := "s1" }]
        (fun _ => { path := "a.wav", duration := 1 }) false = r0 :: rest ∧
      r0.clip_path = some "continuous.webm" ∧
      (∀ r ∈ rest, r.clip_path = none) ∧
      ∀ (loudnorm : Bool) (maxDur : ℚ), ∃ plan,
        assemble_continuous_video (r0 :: rest) loudnorm maxDur = Except.ok plan ∧
        plan.source_clip = "continuous.webm" := by
  exact continuous_single_clip {} [{ id := "s1" }]
    (fun _ => { path := "a.wav", duration := 1 }) (by simp)

/-! ## C8: camera-path keyframe ordering -/

lemma mem_of_head?_mem (l : List CameraKeyframe) (x : CameraKeyframe)
    (h : x ∈ l.head?) : x ∈ l := by
  cases l with
  | nil => simp at h
  | cons a as =>
    simp only [List.head?_cons, Option.mem_def, Option.some.injEq] at h
    rw [← h]
    exact List.mem_cons_self a as

lemma mem_of_getLast?_mem (l : List CameraKeyframe) (x : CameraKeyframe)
    (h : x ∈ l.getLast?) : x ∈ l := by
  rcases List.mem_getLast?_eq_getLast h with ⟨hne, rfl⟩
  exact List.getLast_mem hne

lemma stepKeyframes_times (c : CamChoice) (pf : String) (vo : ℚ) :
    ∀ kf ∈ stepKeyframes c pf vo, kf.time = vo ∨ kf.time = vo + ZOOM_NAV_HOLD_MS / 1000 := by
  intro kf hk
  unfold stepKeyframes at hk
  split at hk
  · rcases List.mem_cons.mp hk with rfl | hk2
    · exact Or.inl rfl
    · rcases List.mem_cons.mp hk2 with rfl | hk3
      · exact Or.inr rfl
      · exact absurd hk3 (List.not_mem_nil kf)
  · rcases List.mem_cons.mp hk with rfl | hk2
    · exact Or.inl rfl
    · exact absurd hk2 (List.not_mem_nil kf)

lemma stepKeyframes_chain (c : CamChoice) (pf : String) (vo : ℚ) :
    List.Chain' (fun a b : CameraKeyframe => a.time ≤ b.time) (stepKeyframes c pf vo) := by
  unfold stepKeyframes
  split
  · refine List.chain'_cons.mpr ⟨?_, List.chain'_singleton _⟩
    show vo ≤ vo + ZOOM_NAV_HOLD_MS / 1000
    norm_num [ZOOM_NAV_HOLD_MS]
  · exact List.chain'_singleton _

lemma camKfs_sorted (steps : List Step) :
    ∀ (results : List StepResult) (pf : String),
      results.Pairwise
        (fun a b => a.video_offset + ZOOM_NAV_HOLD_MS / 1000 ≤ b.video_offset) →
      List.Chain' (fun a b : CameraKeyframe => a.time ≤ b.time) (camKfs steps results pf) ∧
      ∀ kf ∈ camKfs steps results pf, ∃ r ∈ results,
        kf.time = r.video_offset ∨ kf.time = r.video_offset + ZOOM_NAV_HOLD_MS / 1000 := by
  intro results
  induction results with
  | nil =>
    intro pf _
    exact ⟨by simp [camKfs], by simp [camKfs]⟩
  | cons r rest ih =>
    intro pf hp
    rcases List.pairwise_cons.mp hp with ⟨hr, hrest⟩
    simp only [camKfs]
    cases hfind : steps.find? (fun s => s.id == r.step_id) with
    | none =>
      obtain ⟨hc, hm⟩ := ih pf hrest
      refine ⟨hc, ?_⟩
      intro kf hk
      rcases hm kf hk with ⟨r2, h2, h3⟩
      exact ⟨r2, List.mem_cons_of_mem r h2, h3⟩
    | some sd =>
      obtain ⟨hc, hm⟩ := ih (stepCamera sd).focus_name hrest
      refine ⟨?_, ?_⟩
      · refine List.Chain'.append (stepKeyframes_chain _ _ _) hc ?_
        intro x hx y hy
        have hxm : x ∈ stepKeyframes (stepCamera sd) pf r.video_offset :=
          mem_of_getLast?_mem _ x hx
        have hym : y ∈ camKfs steps rest (stepCamera sd).focus_name :=
          mem_of_head?_mem _ y hy
        rcases hm y hym with ⟨r2, h2, h3⟩
        have hgap := hr r2 h2
        have hnav : (0 : ℚ) ≤ ZOOM_NAV_HOLD_MS / 1000 := by norm_num [ZOOM_NAV_HOLD_MS]
        rcases stepKeyframes_times _ _ _ x hxm with e1 | e1 <;>
          rcases h3 with e2 | e2 <;> rw [e1, e2] <;> linarith
      · intro kf hk
        rcases List.mem_append.mp hk with h | h
        · exact ⟨r, List.mem_cons_self r rest, stepKeyframes_times _ _ _ kf h⟩
        · rcases hm kf h with ⟨r2, h2, h3⟩
          exact ⟨r2, List.mem_cons_of_mem r h2, h3⟩

/-- C8 (amended): the keyframe timeline of `build_camera_path` always starts
with the full-frame keyframe `(cx=960, cy=540, zoom=1.0)` at `t=0`; it is
ordered by time provided the capture offsets are nonnegative and ordered with
at least 0.8 s (the establishing-pose hold) between consecutive results, and
the total duration exceeds the start offset of every result by at least
`2 s + 0.8 s` (so the trailing full-frame keyframe lands after every per-step
keyframe). -/
theorem camera_path_ordered (steps : List Step) (results : List StepResult)
    (total_duration : ℚ)
    (hpair : results.Pairwise
      (fun a b => a.video_offset + ZOOM_NAV_HOLD_MS / 1000 ≤ b.video_offset))
    (hnn : ∀ r ∈ results, 0 ≤ r.video_offset)
    (hend : ∀ r ∈ results,
      r.video_offset + ZOOM_NAV_HOLD_MS / 1000 ≤ total_duration - 2) :
    (build_camera_path steps results total_duration).head?
        = some { time := 0, cx := 960, cy := 540, zoom := 1, transition_ms := 0 } ∧
    List.Chain' (fun a b : CameraKeyframe => a.time ≤ b.time)
      (build_camera_path steps results total_duration) := by
  obtain ⟨hc, hm⟩ := camKfs_sorted steps results "full" hpair
  refine ⟨rfl, ?_⟩
  unfold build_camera_path
  refine List.Chain'.cons' ?_ ?_
  · refine List.Chain'.append hc ?_ ?_
    · split
      · exact List.chain'_singleton _
      · exact List.chain'_nil
    · intro x hx y hy
      have hxm := mem_of_getLast?_mem _ x hx
      rcases hm x hxm with ⟨r2, h2, h3⟩
      have he := hend r2 h2
      have hmax : (total_duration - 2) ≤ max 0 (total_duration - 2) := le_max_right _ _
      have hnav : (0 : ℚ) ≤ ZOOM_NAV_HOLD_MS / 1000 := by norm_num [ZOOM_NAV_HOLD_MS]
      split at hy
      · have hym := mem_of_head?_mem _ y hy
        rcases List.mem_cons.mp hym with rfl | hy2
        · rcases h3 with e | e <;> rw [e] <;>
            show _ ≤ max 0 (total_duration - 2) <;> linarith
        · exact absurd hy2 (List.not_mem_nil y)
      · simp at hy
  · intro y hy
    have hym := mem_of_head?_mem _ y hy
    rcases List.mem_append.mp hym with h | h
    · rcases hm y h with ⟨r2, h2, h3⟩
      have h0 := hnn r2 h2
      have hnav : (0 : ℚ) ≤ ZOOM_NAV_HOLD_MS / 1000 := by norm_num [ZOOM_NAV_HOLD_MS]
      show (0 : ℚ) ≤ y.time
      rcases h3 with e | e <;> rw [e] <;> linarith
    · split at h
      · rcases List.mem_cons.mp h with rfl | h2
        · show (0 : ℚ) ≤ max 0 (total_duration - 2)
          exact le_max_left _ _
        · exact absurd h2 (List.not_mem_nil y)
      · simp at h

/-- Witness for the amended C8: one result at offset 1 with total duration 5
yields a time-ordered timeline headed by the full-frame keyframe. -/
theorem camera_path_ordered_witness :
    (build_camera_path [{ id := "s1" }]
        [{ step_id := "s1", attempt_count := 1, success := true, clip_path := none,
            audio_path := "a.wav", audio_duration := 1, step_elapsed := 0,
            video_offset := 1, step_end_offset := none }] 5).head?
        = some { time := 0, cx := 960, cy := 540, zoom := 1, transition_ms := 0 } ∧
    List.Chain' (fun a b : CameraKeyframe => a.time ≤ b.time)
      (build_camera_path [{ id := "s1" }]
        [{ step_id := "s1", attempt_count := 1, success := true, clip_path := none,
            audio_path := "a.wav", audio_duration := 1, step_elapsed := 0,
            video_offset := 1, step_end_offset := none }] 5) := by
  exact camera_path_ordered _ _ _ (by simp)
    (by intro r hr; rw [List.mem_singleton.mp hr]; norm_num)
    (by intro r hr; rw [List.mem_singleton.mp hr]; norm_num [ZOOM_NAV_HOLD_MS])

/-- Counterexample to C8 as stated: with a single result at `video_offset = 5`
and `total_duration = 1`, the trailing full-frame keyframe is appended at
`max(0, 1 - 2.0) = 0`, which precedes the step keyframe at `t = 5`: the
timeline is not ordered by time. -/
theorem camera_path_ordered_cx :
    ∃ a b c : CameraKeyframe,
      build_camera_path [{ id := "s1" }]
          [{ step_id := "s1", attempt_count := 1, success := true, clip_path := none,
              audio_path := "a.wav", audio_duration := 1, step_elapsed := 0,
              video_offset := 5, step_end_offset := none }] 1 = [a, b, c] ∧
      ¬ (b.time ≤ c.time) := by
  refine ⟨{ time := 0, cx := 960, cy := 540, zoom := 1, transition_ms := 0 },
    { time := 5, cx := 780, cy := 400, zoom := 11/5, transition_ms := 600 },
    { time := max 0 (1 - 2), cx := 960, cy := 540, zoom := 1, transition_ms := 600 },
    ?_, ?_⟩
  · unfold build_camera_path
    rw [if_pos (by norm_num : (0 : ℚ) < 1)]
    rfl
  · show ¬ ((5 : ℚ) ≤ max 0 (1 - 2))
    rw [show (max 0 (1 - 2 : ℚ)) = 0 from max_eq_left (by norm_num)]
    norm_num

/-! ## C7: static segments vs smoothstep segments -/

lemma no_paren_append (a b : String) (ha : '(' ∉ a.data) (hb : '(' ∉ b.data) :
    '(' ∉ (a ++ b).data := by
  rw [string_data_append]
  intro hc
  rcases List.mem_append.mp hc with h | h
  · exact ha h
  · exact hb h

lemma no_paren_natRepr (n : ℕ) : '(' ∉ (natRepr n).data := by
  intro hc
  exact absurd (natRepr_chars n _ hc) (by decide)

lemma no_paren_intRepr (z : ℤ) : '(' ∉ (intRepr z).data := by
  intro hc
  exact absurd (intRepr_chars z _ hc) (by decide)

lemma staticSegFilter_no_paren (i : ℕ) (w h x y : ℤ) (srcW srcH : ℕ) :
    '(' ∉ (staticSegFilter i w h x y srcW srcH).data := by
  unfold staticSegFilter
  repeat' apply no_paren_append
  all_goals
    first
    | exact no_paren_natRepr _
    | exact no_paren_intRepr _
    | decide

lemma contains_smoothstepOf (p : String) : containsSub "(3-2*" (smoothstepOf p) := by
  unfold smoothstepOf
  apply containsSub_app_left
  apply containsSub_app_right
  exact containsSub_refl _

lemma contains_easedExpr (d : ℕ) (start delta : ℚ) (s : String)
    (h : containsSub "(3-2*" s) :
    containsSub "(3-2*" (easedExpr d start delta s) := by
  unfold easedExpr
  exact containsSub_app_right _ _ _ h

lemma contains_dimExpr (src : ℕ) (zE : String) (h : containsSub "(3-2*" zE) :
    containsSub "(3-2*" (dimExpr src zE) := by
  unfold dimExpr
  apply containsSub_app_left
  exact containsSub_app_right _ _ _ h

lemma contains_animSegFilter (i : ℕ) (zE cxE cyE : String) (srcW srcH : ℕ)
    (h : containsSub "(3-2*" zE) :
    containsSub "(3-2*" (animSegFilter i zE cxE cyE srcW srcH) := by
  unfold animSegFilter
  apply containsSub_app_left
  apply containsSub_app_right
  exact contains_dimExpr srcW zE h

/-- C7 (amended): for a consecutive keyframe pair of positive duration, a pair
with identical zoom and center always compiles to a static crop whose filter
contains no smoothstep expression; a pair whose endpoints differ by at least
the static tolerance of the code (0.001 in zoom, or 1 source pixel in either center
coordinate) always compiles to a filter containing the smoothstep
interpolation `(3-2*`-expression. -/
theorem zoom_segment_smoothstep (i : ℕ) (prev curr : CameraKeyframe)
    (fps srcW srcH : ℕ) (hpos : 0 < curr.time - prev.time) :
    (prev.zoom = curr.zoom ∧ prev.cx = curr.cx ∧ prev.cy = curr.cy →
      ¬ containsSub "(3-2*" (segFilterFor i prev curr fps srcW srcH)) ∧
    ((1/1000 ≤ pyAbs (prev.zoom - curr.zoom) ∨ 1 ≤ pyAbs (prev.cx - curr.cx)
        ∨ 1 ≤ pyAbs (prev.cy - curr.cy)) →
      containsSub "(3-2*" (segFilterFor i prev curr fps srcW srcH)) := by
  constructor
  · rintro ⟨h1, h2, h3⟩
    unfold segFilterFor
    rw [if_pos ⟨by rw [pyAbs_zero_of_eq _ _ h1]; norm_num,
      by rw [pyAbs_zero_of_eq _ _ h2]; norm_num,
      by rw [pyAbs_zero_of_eq _ _ h3]; norm_num⟩]
    exact not_containsSub_of_chars _ _ '(' (by decide)
      (staticSegFilter_no_paren _ _ _ _ _ _ _)
  · intro h
    unfold segFilterFor
    have hcond : ¬ (pyAbs (prev.zoom - curr.zoom) < 1/1000 ∧ pyAbs (prev.cx - curr.cx) < 1
        ∧ pyAbs (prev.cy - curr.cy) < 1) := by
      rintro ⟨c1, c2, c3⟩
      rcases h with h | h | h <;> linarith
    rw [if_neg hcond]
    exact contains_animSegFilter _ _ _ _ _ _
      (contains_easedExpr _ _ _ _ (contains_smoothstepOf _))

/-- Witness for C7 at a concrete identical pair (static branch). -/
theorem zoom_segment_smoothstep_witness :
    (0 : ℚ) < ({ time := 1, cx := 960, cy := 540, zoom := 1, transition_ms := 600 }
        : CameraKeyframe).time
      - ({ time := 0, cx := 960, cy := 540, zoom := 1, transition_ms := 600 }
        : CameraKeyframe).time ∧
    ¬ containsSub "(3-2*"
      (segFilterFor 1 { time := 0, cx := 960, cy := 540, zoom := 1, transition_ms := 600 }
        { time := 1, cx := 960, cy := 540, zoom := 1, transition_ms := 600 } 30 1920 1080) := by
  refine ⟨by norm_num, ?_⟩
  exact (zoom_segment_smoothstep 1
    { time := 0, cx := 960, cy := 540, zoom := 1, transition_ms := 600 }
    { time := 1, cx := 960, cy := 540, zoom := 1, transition_ms := 600 }
    30 1920 1080 (by norm_num)).1 ⟨rfl, rfl, rfl⟩

/-- Counterexample to C7 as stated: the keyframe pair below differs in its
center x coordinate (960 vs 960.5), yet the emitted segment filter is the
static crop and contains no smoothstep expression, because the difference is
below the static tolerance of the code (`abs(prev.cx - curr.cx) < 1`). -/
theorem zoom_segment_smoothstep_cx :
    (0 : ℚ) < ({ time := 1, cx := 1921/2, cy := 540, zoom := 2, transition_ms := 600 }
        : CameraKeyframe).time
      - ({ time := 0, cx := 960, cy := 540, zoom := 2, transition_ms := 600 }
        : CameraKeyframe).time ∧
    ¬ (({ time := 0, cx := 960, cy := 540, zoom := 2, transition_ms := 600 }
        : CameraKeyframe).cx
      = ({ time := 1, cx := 1921/2, cy := 540, zoom := 2, transition_ms := 600 }
        : CameraKeyframe).cx) ∧
    ¬ containsSub "(3-2*"
      (segFilterFor 1 { time := 0, cx := 960, cy := 540, zoom := 2, transition_ms := 600 }
        { time := 1, cx := 1921/2, cy := 540, zoom := 2, transition_ms := 600 } 30 1920 1080) := by
  refine ⟨by norm_num, by norm_num, ?_⟩
  unfold segFilterFor
  have c1 : pyAbs ((2 : ℚ) - 2) < 1/1000 := by
    rw [show (2 : ℚ) - 2 = 0 by norm_num]
    norm_num [pyAbs]
  have c2 : pyAbs ((960 : ℚ) - 1921/2) < 1 := by
    rw [show (960 : ℚ) - 1921/2 = -(1/2) by norm_num]
    norm_num [pyAbs]
  have c3 : pyAbs ((540 : ℚ) - 540) < 1 := by
    rw [show (540 : ℚ) - 540 = 0 by norm_num]
    norm_num [pyAbs]
  rw [if_pos ⟨c1, c2, c3⟩]
  exact not_containsSub_of_chars _ _ '(' (by decide)
    (staticSegFilter_no_paren _ _ _ _ _ _ _)

end TourRecorder
